import Mathlib

/-!
Verification of the hyperparameter-sweep driver of the CIFAR-10
hyperparameter-optimization notebook.

The notebook samples hyperparameter sets with a seeded sampler, trains one
model per set, tracks the best validation accuracy seen so far with a strict
comparison against an initial value of 0.0, retrains the best configuration on
the combined train+validation data, and evaluates once on the test set.

The embedding below follows the notebook source cell by cell: `HPSet` mirrors
the keys of `hp_ranges`, `trialStep` mirrors the body of the sweep loop, and
`runSweep` mirrors the loop over `enumerate(hp_sets)` starting from
`best_valid_acc = 0.0`, `best_hp_set = None`, `best_hp_ind = None`.
-/

/-- One sampled hyperparameter set: the keys of `hp_ranges` in the notebook. -/
structure HPSet where
  conv1_num_filters : Nat
  conv2_num_filters : Nat
  conv3_num_filters : Nat
  conv4_num_filters : Nat
  conv5_num_filters : Nat
  dense1_size : Nat
  dropout : Rat
  learn_rate : Rat
  batch_size : Nat
deriving DecidableEq, Repr

/-- The Best-So-Far tracker of the sweep loop: `best_valid_acc`,
`best_hp_set`, `best_hp_ind`. -/
structure SweepState where
  best_valid_acc : Rat
  best_hp_set : Option HPSet
  best_hp_ind : Option Nat
deriving DecidableEq, Repr

/-- Initialization before the loop:
`best_valid_acc = 0.0; best_hp_set = None; best_hp_ind = None`. -/
def initState : SweepState :=
  { best_valid_acc := 0, best_hp_set := none, best_hp_ind := none }

/-- One iteration of the tracking part of the sweep loop:
`if valid_acc > best_valid_acc: best_valid_acc = valid_acc;
best_hp_set = hp_set; best_hp_ind = hp_ind`. -/
def trialStep (st : SweepState) (hp_ind : Nat) (hp_set : HPSet)
    (valid_acc : Rat) : SweepState :=
  if valid_acc > st.best_valid_acc then
    { best_valid_acc := valid_acc, best_hp_set := some hp_set,
      best_hp_ind := some hp_ind }
  else st

/-- The sweep loop over the remaining trials, carrying the running index of
`enumerate` and the Best-So-Far state. -/
def sweepGo : Nat → List (HPSet × Rat) → SweepState → SweepState
  | _, [], st => st
  | i, t :: ts, st => sweepGo (i + 1) ts (trialStep st i t.1 t.2)

/-- The whole sweep: `for hp_ind, hp_set in enumerate(hp_sets)` starting at
index 0 from the initial state, where each trial is paired with the validation
accuracy recorded for it. -/
def runSweep (trials : List (HPSet × Rat)) : SweepState :=
  sweepGo 0 trials initState

/-- A concrete hyperparameter set used to instantiate theorems. -/
def hpA : HPSet :=
  { conv1_num_filters := 32, conv2_num_filters := 32, conv3_num_filters := 32,
    conv4_num_filters := 32, conv5_num_filters := 32, dense1_size := 32,
    dropout := mkRat 1 2, learn_rate := mkRat 1 10, batch_size := 8 }

/-- A second concrete hyperparameter set. -/
def hpB : HPSet :=
  { conv1_num_filters := 64, conv2_num_filters := 64, conv3_num_filters := 64,
    conv4_num_filters := 64, conv5_num_filters := 64, dense1_size := 64,
    dropout := mkRat 1 4, learn_rate := mkRat 3 100, batch_size := 16 }

/-- The value the retrain cell reads as its hyperparameter configuration:
`best_hp_set` of the final sweep state, consumed by
`wandb.config.update(best_hp_set)`. -/
def retrainConfigInput (st : SweepState) : Option HPSet := st.best_hp_set

/-- The sequence of Best-So-Far states observed during the sweep: the single
tracker before each trial and after the last one. -/
def sweepTrace : Nat → List (HPSet × Rat) → SweepState → List SweepState
  | _, [], st => [st]
  | i, t :: ts, st => st :: sweepTrace (i + 1) ts (trialStep st i t.1 t.2)

/-- Modelled from the spec: the notebook draws its hyperparameter sets with
sklearn's `ParameterSampler(hp_ranges, n_iter, random_state)`, library code
that is not part of this repository. Per the spec's sampling policy, each of
the `n_iter` draws picks uniformly over the listed candidate values for every
discretely ranged parameter and uniformly from [0, 1] for the continuous
`dropout` range, driven by a pseudo-random generator seeded with the fixed
`random_state`. The generator step is a 32-bit linear congruential update; the
claims only rely on it being a deterministic function of its state. -/
def lcgNext (s : Nat) : Nat := (s * 1664525 + 1013904223) % 4294967296

/-- One uniform draw over the listed candidate values of a discrete range. -/
def pickFromN (l : List Nat) (s : Nat) : Nat × Nat :=
  let s2 := lcgNext s
  (l.getD (s2 % l.length) 0, s2)

/-- One uniform draw over listed rational candidate values. -/
def pickFromQ (l : List Rat) (s : Nat) : Rat × Nat :=
  let s2 := lcgNext s
  (l.getD (s2 % l.length) 0, s2)

/-- One uniform draw from [0, 1] for the continuous `dropout` range. -/
def unitDraw (s : Nat) : Rat × Nat :=
  let s2 := lcgNext s
  (mkRat (Int.ofNat s2) 4294967296, s2)

/-- `hp_ranges` candidates for each `convN_num_filters` key: `[32, 64, 128]`. -/
def conv_num_filters_range : List Nat := [32, 64, 128]

/-- `hp_ranges` candidates for `dense1_size`: `[32, 64, 128, 256, 512]`. -/
def dense1_size_range : List Nat := [32, 64, 128, 256, 512]

/-- `hp_ranges` candidates for `learn_rate`: `[0.1, 0.03, 0.001]`. -/
def learn_rate_range : List Rat := [mkRat 1 10, mkRat 3 100, mkRat 1 1000]

/-- `hp_ranges` candidates for `batch_size`: `[8, 16, 32, 64, 128]`. -/
def batch_size_range : List Nat := [8, 16, 32, 64, 128]

/-- One sampled hyperparameter set: one draw per key of `hp_ranges`,
threading the generator state. -/
def sampleOne (s : Nat) : HPSet × Nat :=
  let r1 := pickFromN conv_num_filters_range s
  let r2 := pickFromN conv_num_filters_range r1.2
  let r3 := pickFromN conv_num_filters_range r2.2
  let r4 := pickFromN conv_num_filters_range r3.2
  let r5 := pickFromN conv_num_filters_range r4.2
  let r6 := pickFromN dense1_size_range r5.2
  let r7 := unitDraw r6.2
  let r8 := pickFromQ learn_rate_range r7.2
  let r9 := pickFromN batch_size_range r8.2
  ({ conv1_num_filters := r1.1, conv2_num_filters := r2.1,
     conv3_num_filters := r3.1, conv4_num_filters := r4.1,
     conv5_num_filters := r5.1, dense1_size := r6.1, dropout := r7.1,
     learn_rate := r8.1, batch_size := r9.1 }, r9.2)

/-- The sampler output: `n_iter` hyperparameter sets from the given seed. -/
def sampleHPSets : Nat → Nat → List HPSet
  | 0, _ => []
  | n + 1, s =>
    let r := sampleOne s
    r.1 :: sampleHPSets n r.2

/-- The first hyperparameter set sampled with the notebook seed 99. -/
def hpSampleW : HPSet := (sampleHPSets 1 99).getD 0 hpA

/-- The `static_hyper_params` dict of the notebook. -/
structure StaticHyperParams where
  activation : String
  conv_filter_size : Nat
  num_epochs : Nat
deriving DecidableEq, Repr

/-- `static_hyper_params = {'activation': 'relu', 'conv_filter_size': 3,
'num_epochs': 2}`. -/
def static_hyper_params : StaticHyperParams :=
  { activation := "relu", conv_filter_size := 3, num_epochs := 2 }

/-- The per-epoch validation accuracy series `history.history['val_acc']`
produced by training for the given number of epochs, with the training routine
abstracted as a map from epoch number to validation accuracy. -/
def fitValAccHistory (epochAcc : Nat → Rat) (epochs : Nat) : List Rat :=
  (List.range epochs).map epochAcc

/-- The value the sweep records for one trial:
`valid_acc = history.history['val_acc'][-1]` after training for
`static_hyper_params['num_epochs']` epochs. -/
def trialValidAcc (epochAcc : Nat → Rat) : Rat :=
  (fitValAccHistory epochAcc static_hyper_params.num_epochs).getLastD 0

/-- The trial results of the sweep: each sampled hyperparameter set paired
with the validation accuracy recorded for it. -/
def sweepTrials (train : HPSet → Nat → Rat) (hps : List HPSet) :
    List (HPSet × Rat) :=
  hps.map (fun hp => (hp, trialValidAcc (train hp)))

/-- Just the recorded validation accuracies, one per sampled set. -/
def trialResults (train : HPSet → Nat → Rat) (hps : List HPSet) : List Rat :=
  hps.map (fun hp => trialValidAcc (train hp))

/-- The sweep loop with a fallible trial body: the loop has no try/except, so
the first raised error propagates out of the loop. The first component logs
the indices of the trials that actually started; the second is either the
error that escaped or the final Best-So-Far state. -/
def sweepE (trainE : Nat → HPSet → Except String Rat) :
    Nat → List HPSet → SweepState → List Nat × Except String SweepState
  | _, [], st => ([], Except.ok st)
  | i, hp :: hps, st =>
    match trainE i hp with
    | Except.error e => ([i], Except.error e)
    | Except.ok a =>
      let r := sweepE trainE (i + 1) hps (trialStep st i hp a)
      (i :: r.1, r.2)

/-- A trial body whose first trial raises. -/
def trainFailAt0 : Nat → HPSet → Except String Rat :=
  fun i _ => if i = 0 then Except.error "trial failure" else Except.ok 0

/-- The `wandb.config` object as read by `build_compile`: the static
hyperparameters plus the sampled ones. -/
structure Config where
  activation : String
  conv_filter_size : Nat
  num_epochs : Nat
  conv1_num_filters : Nat
  conv2_num_filters : Nat
  conv3_num_filters : Nat
  conv4_num_filters : Nat
  conv5_num_filters : Nat
  dense1_size : Nat
  dropout : Rat
  learn_rate : Rat
  batch_size : Nat
deriving DecidableEq, Repr

/-- `wandb.config.update(hp_set)`: overwrite the sampled keys with the values
of the given hyperparameter set, keeping the static keys. -/
def configUpdateHP (c : Config) (h : HPSet) : Config :=
  { c with
    conv1_num_filters := h.conv1_num_filters
    conv2_num_filters := h.conv2_num_filters
    conv3_num_filters := h.conv3_num_filters
    conv4_num_filters := h.conv4_num_filters
    conv5_num_filters := h.conv5_num_filters
    dense1_size := h.dense1_size
    dropout := h.dropout
    learn_rate := h.learn_rate
    batch_size := h.batch_size }

/-- The sampled-hyperparameter part of a config object. -/
def configHPSet (c : Config) : HPSet :=
  { conv1_num_filters := c.conv1_num_filters,
    conv2_num_filters := c.conv2_num_filters,
    conv3_num_filters := c.conv3_num_filters,
    conv4_num_filters := c.conv4_num_filters,
    conv5_num_filters := c.conv5_num_filters,
    dense1_size := c.dense1_size, dropout := c.dropout,
    learn_rate := c.learn_rate, batch_size := c.batch_size }

/-- One layer of the `Sequential` model built by `build_compile`. -/
inductive Layer where
  | conv2d (num_filters filter_size : Nat) (activation : String)
  | maxPooling2d
  | flatten
  | dense (size : Nat) (activation : String)
  | dropoutLayer (rate : Rat)
deriving DecidableEq, Repr

/-- `build_compile(config)`: the layer stack of the notebook model, together
with the compiled optimizer learning rate `Adam(lr=config.learn_rate)`. -/
def build_compile (c : Config) : List Layer × Rat :=
  ([Layer.conv2d c.conv1_num_filters c.conv_filter_size c.activation,
    Layer.maxPooling2d,
    Layer.conv2d c.conv2_num_filters c.conv_filter_size c.activation,
    Layer.conv2d c.conv3_num_filters c.conv_filter_size c.activation,
    Layer.maxPooling2d,
    Layer.conv2d c.conv4_num_filters c.conv_filter_size c.activation,
    Layer.conv2d c.conv5_num_filters c.conv_filter_size c.activation,
    Layer.maxPooling2d,
    Layer.flatten,
    Layer.dense c.dense1_size c.activation,
    Layer.dropoutLayer c.dropout,
    Layer.dense 10 "softmax"], c.learn_rate)

/-- `train_test_split(X_train_valid, test_size=0.10)`: split the combined
train+validation data into the training part and the held-out validation
part (one tenth of the rows). -/
def train_test_split {α : Type} (X : List α) : List α × List α :=
  (X.drop (X.length / 10), X.take (X.length / 10))

/-- What the retraining cell does, as a trace: which config the rebuilt model
was compiled from, what data `fit` received, and how often and on what data
`evaluate` ran. -/
structure RetrainTrace (α : Type) where
  config : Config
  model : List Layer × Rat
  fitData : α
  fit_epochs : Nat
  fit_batch_size : Nat
  evalData : α
  evalCount : Nat

/-- The retraining cell: `wandb.config.update(best_hp_set);
model = build_compile(wandb.config);
model.fit(X_train_valid, y_train_valid, ...);
model.evaluate(X_test, y_test, ...)`. -/
def retrainPhase {α : Type} (cfg : Config) (best : HPSet)
    (train_valid test : α) : RetrainTrace α :=
  let cfg2 := configUpdateHP cfg best
  { config := cfg2, model := build_compile cfg2, fitData := train_valid,
    fit_epochs := cfg2.num_epochs, fit_batch_size := cfg2.batch_size,
    evalData := test, evalCount := 1 }

theorem trialStep_of_gt {st : SweepState} {i : Nat} {hp : HPSet} {a : Rat}
    (h : st.best_valid_acc < a) :
    trialStep st i hp a =
      { best_valid_acc := a, best_hp_set := some hp, best_hp_ind := some i } := by
  simp [trialStep, h]

theorem trialStep_of_le {st : SweepState} {i : Nat} {hp : HPSet} {a : Rat}
    (h : a ≤ st.best_valid_acc) :
    trialStep st i hp a = st := by
  simp [trialStep, not_lt_of_ge h]

/-- Full characterization of the sweep fold: either no trial strictly exceeded
the incoming best accuracy and the state is unchanged, or the final state is
exactly the earliest trial attaining the maximum over the trials that exceeds
the incoming best. -/
theorem sweepGo_spec (ts : List (HPSet × Rat)) : ∀ i st,
    (sweepGo i ts st = st ∧ ∀ t ∈ ts, t.2 ≤ st.best_valid_acc) ∨
    (∃ k, ∃ hk : k < ts.length,
      sweepGo i ts st =
        { best_valid_acc := (ts.get ⟨k, hk⟩).2,
          best_hp_set := some (ts.get ⟨k, hk⟩).1,
          best_hp_ind := some (i + k) } ∧
      st.best_valid_acc < (ts.get ⟨k, hk⟩).2 ∧
      (∀ t ∈ ts, t.2 ≤ (ts.get ⟨k, hk⟩).2) ∧
      (∀ j, ∀ hj : j < ts.length, j < k →
        (ts.get ⟨j, hj⟩).2 < (ts.get ⟨k, hk⟩).2)) := by
  induction ts with
  | nil =>
    intro i st
    left
    exact ⟨rfl, by intro t ht; cases ht⟩
  | cons t ts ih =>
    intro i st
    by_cases hgt : st.best_valid_acc < t.2
    · have hstep := @trialStep_of_gt st i t.1 t.2 hgt
      rcases ih (i + 1) (trialStep st i t.1 t.2) with ⟨heq, hall⟩ |
        ⟨k, hk, heq, hlt, hall, hbefore⟩
      · right
        refine ⟨0, Nat.succ_pos _, ?_, ?_, ?_, ?_⟩
        · show sweepGo (i + 1) ts (trialStep st i t.1 t.2) = _
          rw [heq, hstep]
          simp [List.get]
        · simpa [List.get] using hgt
        · intro u hu
          rcases List.mem_cons.mp hu with h | h
          · simp [List.get, h]
          · have := hall u h
            rw [hstep] at this
            simpa [List.get] using this
        · intro j hj hjk
          exact absurd hjk (Nat.not_lt_zero j)
      · right
        refine ⟨k + 1, Nat.succ_lt_succ hk, ?_, ?_, ?_, ?_⟩
        · show sweepGo (i + 1) ts (trialStep st i t.1 t.2) = _
          rw [heq]
          have harith : i + 1 + k = i + (k + 1) := by omega
          simp [List.get, harith]
        · have hlt2 : (trialStep st i t.1 t.2).best_valid_acc <
              (ts.get ⟨k, hk⟩).2 := hlt
          rw [hstep] at hlt2
          have : st.best_valid_acc < (ts.get ⟨k, hk⟩).2 :=
            lt_trans hgt hlt2
          simpa [List.get] using this
        · intro u hu
          have hlt2 : (trialStep st i t.1 t.2).best_valid_acc <
              (ts.get ⟨k, hk⟩).2 := hlt
          rw [hstep] at hlt2
          rcases List.mem_cons.mp hu with h | h
          · simpa [List.get, h] using le_of_lt hlt2
          · simpa [List.get] using hall u h
        · intro j hj hjk
          have hlt2 : (trialStep st i t.1 t.2).best_valid_acc <
              (ts.get ⟨k, hk⟩).2 := hlt
          rw [hstep] at hlt2
          cases j with
          | zero => simpa [List.get] using hlt2
          | succ j2 =>
            have hj2 : j2 < ts.length := Nat.lt_of_succ_lt_succ hj
            have hj2k : j2 < k := Nat.lt_of_succ_lt_succ hjk
            simpa [List.get] using hbefore j2 hj2 hj2k
    · push_neg at hgt
      have hstep := @trialStep_of_le st i t.1 t.2 hgt
      rcases ih (i + 1) (trialStep st i t.1 t.2) with ⟨heq, hall⟩ |
        ⟨k, hk, heq, hlt, hall, hbefore⟩
      · left
        constructor
        · show sweepGo (i + 1) ts (trialStep st i t.1 t.2) = st
          rw [heq, hstep]
        · intro u hu
          rcases List.mem_cons.mp hu with h | h
          · rw [h]; exact hgt
          · have := hall u h
            rw [hstep] at this
            exact this
      · right
        rw [hstep] at heq hlt
        refine ⟨k + 1, Nat.succ_lt_succ hk, ?_, ?_, ?_, ?_⟩
        · show sweepGo (i + 1) ts (trialStep st i t.1 t.2) = _
          rw [hstep, heq]
          have harith : i + 1 + k = i + (k + 1) := by omega
          simp [List.get, harith]
        · simpa [List.get] using hlt
        · intro u hu
          rcases List.mem_cons.mp hu with h | h
          · rw [h]
            have : t.2 ≤ st.best_valid_acc := hgt
            simpa [List.get] using le_trans this (le_of_lt hlt)
          · simpa [List.get] using hall u h
        · intro j hj hjk
          cases j with
          | zero =>
            have : t.2 ≤ st.best_valid_acc := hgt
            simpa [List.get] using lt_of_le_of_lt this hlt
          | succ j2 =>
            have hj2 : j2 < ts.length := Nat.lt_of_succ_lt_succ hj
            have hj2k : j2 < k := Nat.lt_of_succ_lt_succ hjk
            simpa [List.get] using hbefore j2 hj2 hj2k

/-- C1: as stated the claim fails on the code: a completed sweep whose single
trial records validation accuracy 0.0 has a maximum trial result, yet the
Best-So-Far state still holds the initialization (`None` hyperparameters and
index), because the loop compares with a strict `>` against the initial 0.0. -/
theorem c1_counterexample :
    (runSweep [(hpA, 0)]).best_hp_set = none ∧
    (runSweep [(hpA, 0)]).best_hp_ind = none ∧
    runSweep [(hpA, 0)] ≠
      { best_valid_acc := 0, best_hp_set := some hpA, best_hp_ind := some 0 } := by
  decide

theorem runSweep_best_spec (trials : List (HPSet × Rat))
    (h : ∃ t ∈ trials, 0 < t.2) :
    ∃ k, ∃ hk : k < trials.length,
      runSweep trials =
        { best_valid_acc := (trials.get ⟨k, hk⟩).2,
          best_hp_set := some (trials.get ⟨k, hk⟩).1,
          best_hp_ind := some k } ∧
      (∀ t ∈ trials, t.2 ≤ (trials.get ⟨k, hk⟩).2) ∧
      (∀ j, ∀ hj : j < trials.length, j < k →
        (trials.get ⟨j, hj⟩).2 < (trials.get ⟨k, hk⟩).2) := by
  rcases sweepGo_spec trials 0 initState with ⟨heq, hall⟩ |
    ⟨k, hk, heq, hlt, hall, hbefore⟩
  · rcases h with ⟨t, ht, hpos⟩
    have hle := hall t ht
    simp [initState] at hle
    exact absurd hpos (not_lt_of_ge hle)
  · refine ⟨k, hk, ?_, hall, hbefore⟩
    show sweepGo 0 trials initState = _
    rw [heq]
    simp

/-- C1 (amended): if some trial records a strictly positive validation
accuracy, the Best-So-Far state after the sweep is exactly the trial result
attaining the maximum recorded accuracy, at the earliest index attaining it. -/
theorem sweep_best_is_max_trial (trials : List (HPSet × Rat))
    (h : ∃ t ∈ trials, 0 < t.2) :
    ∃ k, ∃ hk : k < trials.length,
      runSweep trials =
        { best_valid_acc := (trials.get ⟨k, hk⟩).2,
          best_hp_set := some (trials.get ⟨k, hk⟩).1,
          best_hp_ind := some k } ∧
      (∀ t ∈ trials, t.2 ≤ (trials.get ⟨k, hk⟩).2) ∧
      (∀ j, ∀ hj : j < trials.length, j < k →
        (trials.get ⟨j, hj⟩).2 < (trials.get ⟨k, hk⟩).2) :=
  runSweep_best_spec trials h

theorem sweep_best_is_max_trial_witness :
    ∃ k, ∃ hk : k < [(hpA, mkRat 1 2)].length,
      runSweep [(hpA, mkRat 1 2)] =
        { best_valid_acc := ([(hpA, mkRat 1 2)].get ⟨k, hk⟩).2,
          best_hp_set := some ([(hpA, mkRat 1 2)].get ⟨k, hk⟩).1,
          best_hp_ind := some k } ∧
      (∀ t ∈ [(hpA, mkRat 1 2)], t.2 ≤ ([(hpA, mkRat 1 2)].get ⟨k, hk⟩).2) ∧
      (∀ j, ∀ hj : j < [(hpA, mkRat 1 2)].length, j < k →
        ([(hpA, mkRat 1 2)].get ⟨j, hj⟩).2 <
          ([(hpA, mkRat 1 2)].get ⟨k, hk⟩).2) :=
  sweep_best_is_max_trial [(hpA, mkRat 1 2)] ⟨(hpA, mkRat 1 2), by simp, by decide⟩

/-- C4: as stated the claim fails on the code: two trials both recording
validation accuracy 0.0 share the maximum, yet no trial at all is selected
(`best_hp_ind` stays `None`), so the earliest of them is not selected. -/
theorem c4_counterexample :
    ([(hpA, (0:Rat)), (hpB, 0)].get ⟨0, by decide⟩).2 =
      ([(hpA, (0:Rat)), (hpB, 0)].get ⟨1, by decide⟩).2 ∧
    (runSweep [(hpA, 0), (hpB, 0)]).best_hp_ind = none ∧
    (runSweep [(hpA, 0), (hpB, 0)]).best_hp_ind ≠ some 0 := by
  decide

/-- C4 (amended): if trials `i < j` both attain the maximum recorded
validation accuracy and that maximum is strictly positive, then the selected
best index exists, is at most `i` (never the later tied trial), attains the
same accuracy, and every earlier trial is strictly below it. -/
theorem c4_amended (trials : List (HPSet × Rat)) (i j : Nat)
    (hi : i < trials.length) (hj : j < trials.length) (hij : i < j)
    (htie : (trials.get ⟨i, hi⟩).2 = (trials.get ⟨j, hj⟩).2)
    (hmax : ∀ t ∈ trials, t.2 ≤ (trials.get ⟨i, hi⟩).2)
    (hpos : 0 < (trials.get ⟨i, hi⟩).2) :
    ∃ k, ∃ hk : k < trials.length,
      (runSweep trials).best_hp_ind = some k ∧ k ≤ i ∧
      (trials.get ⟨k, hk⟩).2 = (trials.get ⟨i, hi⟩).2 ∧
      (runSweep trials).best_hp_set = some (trials.get ⟨k, hk⟩).1 ∧
      ∀ l, ∀ hl : l < trials.length, l < k →
        (trials.get ⟨l, hl⟩).2 < (trials.get ⟨k, hk⟩).2 := by
  rcases runSweep_best_spec trials
      ⟨trials.get ⟨i, hi⟩, List.get_mem trials i hi, hpos⟩ with
    ⟨k, hk, heq, hall, hbefore⟩
  have hacc : (trials.get ⟨k, hk⟩).2 = (trials.get ⟨i, hi⟩).2 := by
    apply le_antisymm
    · exact hmax (trials.get ⟨k, hk⟩) (List.get_mem trials k hk)
    · exact hall (trials.get ⟨i, hi⟩) (List.get_mem trials i hi)
  have hki : k ≤ i := by
    by_contra hik
    push_neg at hik
    have := hbefore i hi hik
    rw [hacc] at this
    exact lt_irrefl _ this
  exact ⟨k, hk, by rw [heq], hki, hacc, by rw [heq], hbefore⟩

theorem c4_amended_witness :
    ∃ k, ∃ hk : k < [(hpA, mkRat 1 2), (hpB, mkRat 1 2)].length,
      (runSweep [(hpA, mkRat 1 2), (hpB, mkRat 1 2)]).best_hp_ind = some k ∧
      k ≤ 0 ∧
      ([(hpA, mkRat 1 2), (hpB, mkRat 1 2)].get ⟨k, hk⟩).2 =
        ([(hpA, mkRat 1 2), (hpB, mkRat 1 2)].get ⟨0, by decide⟩).2 ∧
      (runSweep [(hpA, mkRat 1 2), (hpB, mkRat 1 2)]).best_hp_set =
        some ([(hpA, mkRat 1 2), (hpB, mkRat 1 2)].get ⟨k, hk⟩).1 ∧
      ∀ l, ∀ hl : l < [(hpA, mkRat 1 2), (hpB, mkRat 1 2)].length, l < k →
        ([(hpA, mkRat 1 2), (hpB, mkRat 1 2)].get ⟨l, hl⟩).2 <
          ([(hpA, mkRat 1 2), (hpB, mkRat 1 2)].get ⟨k, hk⟩).2 :=
  c4_amended [(hpA, mkRat 1 2), (hpB, mkRat 1 2)] 0 1 (by decide) (by decide) (by decide)
    (by decide) (by decide) (by decide)

/-- C9: if no trial records a validation accuracy strictly above the 0.0
initialization, the sweep ends in the initial state: `best_hp_set` and
`best_hp_ind` are still `None`, and the retraining step therefore receives
`None` rather than any sampled hyperparameter set. -/
theorem c9_all_at_most_zero (trials : List (HPSet × Rat))
    (h : ∀ t ∈ trials, t.2 ≤ 0) :
    runSweep trials = initState ∧
    (runSweep trials).best_hp_set = none ∧
    (runSweep trials).best_hp_ind = none ∧
    retrainConfigInput (runSweep trials) = none ∧
    ∀ hp : HPSet, retrainConfigInput (runSweep trials) ≠ some hp := by
  rcases sweepGo_spec trials 0 initState with ⟨heq, _⟩ |
    ⟨k, hk, _, hlt, _, _⟩
  · have hrw : runSweep trials = initState := heq
    refine ⟨hrw, ?_, ?_, ?_, ?_⟩ <;> rw [hrw] <;> simp [initState, retrainConfigInput]
  · have hle := h (trials.get ⟨k, hk⟩) (List.get_mem trials k hk)
    have : (0:Rat) < (trials.get ⟨k, hk⟩).2 := hlt
    exact absurd this (not_lt_of_ge hle)

theorem c9_all_at_most_zero_witness :
    runSweep [(hpA, 0), (hpB, 0)] = initState ∧
    (runSweep [(hpA, 0), (hpB, 0)]).best_hp_set = none ∧
    (runSweep [(hpA, 0), (hpB, 0)]).best_hp_ind = none ∧
    retrainConfigInput (runSweep [(hpA, 0), (hpB, 0)]) = none ∧
    ∀ hp : HPSet, retrainConfigInput (runSweep [(hpA, 0), (hpB, 0)]) ≠ some hp :=
  c9_all_at_most_zero [(hpA, 0), (hpB, 0)] (by decide)

theorem sweepTrace_head : ∀ (ts : List (HPSet × Rat)) (i : Nat)
    (st : SweepState), (sweepTrace i ts st).head? = some st := by
  intro ts i st
  cases ts <;> rfl

theorem trialStep_acc_mono (s : SweepState) (j : Nat) (hp : HPSet) (a : Rat) :
    s.best_valid_acc ≤ (trialStep s j hp a).best_valid_acc := by
  by_cases h : s.best_valid_acc < a
  · rw [trialStep_of_gt h]
    exact le_of_lt h
  · push_neg at h
    rw [trialStep_of_le h]

theorem sweepTrace_chain : ∀ (ts : List (HPSet × Rat)) (i : Nat)
    (st : SweepState),
    List.Chain' (fun s1 s2 => s1.best_valid_acc ≤ s2.best_valid_acc)
      (sweepTrace i ts st) := by
  intro ts
  induction ts with
  | nil => intro i st; simp [sweepTrace]
  | cons t ts ih =>
    intro i st
    rw [sweepTrace]
    refine List.chain'_cons'.mpr ⟨?_, ih (i + 1) (trialStep st i t.1 t.2)⟩
    intro y hy
    rw [sweepTrace_head] at hy
    cases hy
    exact trialStep_acc_mono st i t.1 t.2

/-- C5: the single Best-So-Far tracker is monotone along the sweep: the
sequence of its `best_valid_acc` values never decreases, the tracker changes
in a trial exactly when that trial's validation accuracy strictly exceeds the
current best, and every change sets the best accuracy to the strictly larger
new value. -/
theorem best_so_far_monotone (i : Nat) (ts : List (HPSet × Rat))
    (st : SweepState) :
    List.Chain' (fun s1 s2 => s1.best_valid_acc ≤ s2.best_valid_acc)
      (sweepTrace i ts st) ∧
    (∀ j hp a s, trialStep s j hp a ≠ s ↔ s.best_valid_acc < a) ∧
    (∀ j hp a s, s.best_valid_acc < a →
      (trialStep s j hp a).best_valid_acc = a ∧
      s.best_valid_acc < (trialStep s j hp a).best_valid_acc) := by
  refine ⟨sweepTrace_chain ts i st, ?_, ?_⟩
  · intro j hp a s
    constructor
    · intro hne
      by_contra hle
      push_neg at hle
      exact hne (trialStep_of_le hle)
    · intro hlt heq
      have hacc := congrArg SweepState.best_valid_acc heq
      rw [trialStep_of_gt hlt] at hacc
      simp at hacc
      rw [hacc] at hlt
      exact lt_irrefl _ hlt
  · intro j hp a s hlt
    rw [trialStep_of_gt hlt]
    exact ⟨rfl, hlt⟩

theorem best_so_far_monotone_witness :
    (trialStep initState 0 hpA (mkRat 1 2)).best_valid_acc = mkRat 1 2 ∧
    initState.best_valid_acc <
      (trialStep initState 0 hpA (mkRat 1 2)).best_valid_acc :=
  (best_so_far_monotone 0 [] initState).2.2 0 hpA (mkRat 1 2) initState
    (by decide)

theorem sampleHPSets_length (n seed : Nat) : (sampleHPSets n seed).length = n := by
  induction n generalizing seed with
  | zero => rfl
  | succ n ih => simp [sampleHPSets, ih]

theorem getD_mod_mem {α : Type} (l : List α) (d : α) (k : Nat)
    (h : 0 < l.length) : l.getD (k % l.length) d ∈ l := by
  have hk : k % l.length < l.length := Nat.mod_lt _ h
  rw [List.getD_eq_getElem l d hk]
  exact List.getElem_mem hk

theorem pickFromN_mem (l : List Nat) (s : Nat) (h : 0 < l.length) :
    (pickFromN l s).1 ∈ l :=
  getD_mod_mem l 0 (lcgNext s) h

theorem pickFromQ_mem (l : List Rat) (s : Nat) (h : 0 < l.length) :
    (pickFromQ l s).1 ∈ l :=
  getD_mod_mem l 0 (lcgNext s) h

theorem unitDraw_bounds (s : Nat) :
    0 ≤ (unitDraw s).1 ∧ (unitDraw s).1 ≤ 1 := by
  have hlt : lcgNext s < 4294967296 := by
    unfold lcgNext
    exact Nat.mod_lt _ (by norm_num)
  have heq : (unitDraw s).1 =
      ((lcgNext s : Int) : Rat) / ((4294967296 : Int) : Rat) := by
    show mkRat (Int.ofNat (lcgNext s)) 4294967296 = _
    rw [Rat.mkRat_eq_divInt, Rat.divInt_eq_div]
    norm_num
  constructor
  · rw [heq]
    apply div_nonneg
    · have h0 : (0 : Int) ≤ (lcgNext s : Int) := Int.natCast_nonneg _
      exact_mod_cast h0
    · norm_num
  · rw [heq]
    rw [div_le_one (by norm_num)]
    have : ((lcgNext s : Int) : Rat) ≤ ((4294967296 : Int) : Rat) := by
      exact_mod_cast le_of_lt hlt
    simpa using this

/-- C10: every sampled hyperparameter set draws each discretely ranged
parameter from that parameter's listed candidate values, and draws dropout
from the interval [0, 1]. -/
theorem sampled_hp_in_ranges (n seed : Nat) (hp : HPSet)
    (h : hp ∈ sampleHPSets n seed) :
    hp.conv1_num_filters ∈ conv_num_filters_range ∧
    hp.conv2_num_filters ∈ conv_num_filters_range ∧
    hp.conv3_num_filters ∈ conv_num_filters_range ∧
    hp.conv4_num_filters ∈ conv_num_filters_range ∧
    hp.conv5_num_filters ∈ conv_num_filters_range ∧
    hp.dense1_size ∈ dense1_size_range ∧
    hp.learn_rate ∈ learn_rate_range ∧
    hp.batch_size ∈ batch_size_range ∧
    0 ≤ hp.dropout ∧ hp.dropout ≤ 1 := by
  induction n generalizing seed with
  | zero => cases h
  | succ n ih =>
    simp only [sampleHPSets] at h
    rcases List.mem_cons.mp h with heq | hmem
    · subst heq
      simp only [sampleOne]
      exact ⟨pickFromN_mem _ _ (by decide), pickFromN_mem _ _ (by decide),
        pickFromN_mem _ _ (by decide), pickFromN_mem _ _ (by decide),
        pickFromN_mem _ _ (by decide), pickFromN_mem _ _ (by decide),
        pickFromQ_mem _ _ (by decide), pickFromN_mem _ _ (by decide),
        (unitDraw_bounds _).1, (unitDraw_bounds _).2⟩
    · exact ih _ hmem

theorem sampled_hp_in_ranges_witness :
    hpSampleW.conv1_num_filters ∈ conv_num_filters_range ∧
    hpSampleW.conv2_num_filters ∈ conv_num_filters_range ∧
    hpSampleW.conv3_num_filters ∈ conv_num_filters_range ∧
    hpSampleW.conv4_num_filters ∈ conv_num_filters_range ∧
    hpSampleW.conv5_num_filters ∈ conv_num_filters_range ∧
    hpSampleW.dense1_size ∈ dense1_size_range ∧
    hpSampleW.learn_rate ∈ learn_rate_range ∧
    hpSampleW.batch_size ∈ batch_size_range ∧
    0 ≤ hpSampleW.dropout ∧ hpSampleW.dropout ≤ 1 :=
  sampled_hp_in_ranges 1 99 hpSampleW (by decide)

/-- C6: with the random seed fixed, the sampler is deterministic: its output
is a function of the trial count and the seed alone, so two runs over the same
ranges with the same seed produce identical sequences of hyperparameter
sets. -/
theorem sampler_deterministic (n seed1 seed2 : Nat) (h : seed1 = seed2) :
    sampleHPSets n seed1 = sampleHPSets n seed2 := by
  rw [h]

theorem sampler_deterministic_witness :
    sampleHPSets 2 99 = sampleHPSets 2 99 :=
  sampler_deterministic 2 99 99 rfl

/-- C7: the value recorded for a trial is the validation accuracy of the final
training epoch: the last entry of the `val_acc` history after training for the
fixed `num_epochs = 2` epochs, and the sweep records exactly that value for
every sampled hyperparameter set. -/
theorem trial_records_final_epoch_val_acc (train : HPSet → Nat → Rat)
    (hps : List HPSet) (hp : HPSet) :
    trialValidAcc (train hp) = train hp (static_hyper_params.num_epochs - 1) ∧
    fitValAccHistory (train hp) static_hyper_params.num_epochs =
      [train hp 0, train hp 1] ∧
    static_hyper_params.num_epochs = 2 ∧
    sweepTrials train hps =
      hps.map (fun q => (q, train q (static_hyper_params.num_epochs - 1))) :=
  ⟨rfl, rfl, rfl, rfl⟩

theorem sweepE_all_ok_log (f : Nat → HPSet → Rat) :
    ∀ (hps : List HPSet) (i : Nat) (st : SweepState),
    (sweepE (fun j hp => Except.ok (f j hp)) i hps st).1 =
      (List.range hps.length).map (fun p => i + p) := by
  intro hps
  induction hps with
  | nil => intro i st; rfl
  | cons hp hps ih =>
    intro i st
    have hfun : ((fun p => i + p) ∘ Nat.succ) = fun p => (i + 1) + p := by
      funext p
      simp only [Function.comp_apply]
      omega
    show i :: (sweepE (fun j hp => Except.ok (f j hp)) (i + 1) hps
        (trialStep st i hp (f i hp))).1 =
      (List.range (hp :: hps).length).map (fun p => i + p)
    rw [ih (i + 1) (trialStep st i hp (f i hp)), List.length_cons,
      List.range_succ_eq_map, List.map_cons, List.map_map, hfun]
    simp

/-- C2: the driver runs exactly N trials: the sampler yields N hyperparameter
sets, the sweep records one trial result per set (N pairs, N accuracies), and
when every trial completes the loop body starts exactly once per index
0, ..., N-1. -/
theorem driver_runs_exactly_n_trials (n seed : Nat)
    (train : HPSet → Nat → Rat) :
    (sampleHPSets n seed).length = n ∧
    (sweepTrials train (sampleHPSets n seed)).length = n ∧
    (trialResults train (sampleHPSets n seed)).length = n ∧
    (sweepE (fun i hp => Except.ok (trialValidAcc (train hp))) 0
      (sampleHPSets n seed) initState).1 = List.range n := by
  have hlen := sampleHPSets_length n seed
  refine ⟨hlen, ?_, ?_, ?_⟩
  · simp [sweepTrials, hlen]
  · simp [trialResults, hlen]
  · have hlog := sweepE_all_ok_log (fun _ hp => trialValidAcc (train hp))
      (sampleHPSets n seed) 0 initState
    rw [hlog, hlen]
    simp

theorem cons_map_range_shift (j m : Nat) :
    j :: (List.range m).map (fun p => j + 1 + p) =
      (List.range (m + 1)).map (fun p => j + p) := by
  have hfun : ((fun p => j + p) ∘ Nat.succ) = fun p => j + 1 + p := by
    funext p
    simp only [Function.comp_apply]
    omega
  rw [List.range_succ_eq_map, List.map_cons, List.map_map, hfun]
  norm_num

theorem sweepE_first_error (trainE : Nat → HPSet → Except String Rat) :
    ∀ (hps : List HPSet) (i : Nat) (st : SweepState) (k : Nat)
      (hk : k < hps.length) (e : String),
    (∀ p, ∀ hp2 : p < hps.length, p < k →
      ∃ a, trainE (i + p) (hps.get ⟨p, hp2⟩) = Except.ok a) →
    trainE (i + k) (hps.get ⟨k, hk⟩) = Except.error e →
    sweepE trainE i hps st =
      ((List.range (k + 1)).map (fun p => i + p), Except.error e) := by
  intro hps
  induction hps with
  | nil => intro i st k hk; exact absurd hk (Nat.not_lt_zero k)
  | cons hp hps ih =>
    intro i st k hk e hok herr
    cases k with
    | zero =>
      have herr2 : trainE i hp = Except.error e := by
        simpa [List.get] using herr
      simp [sweepE, herr2, List.range_succ]
    | succ k2 =>
      obtain ⟨a, ha⟩ := hok 0 (Nat.succ_pos _) (Nat.succ_pos _)
      have ha2 : trainE i hp = Except.ok a := by
        simpa [List.get] using ha
      have hk2 : k2 < hps.length := Nat.lt_of_succ_lt_succ hk
      have hok2 : ∀ p, ∀ hp2 : p < hps.length, p < k2 →
          ∃ a2, trainE (i + 1 + p) (hps.get ⟨p, hp2⟩) = Except.ok a2 := by
        intro p hp2 hpk
        have harith : i + 1 + p = i + (p + 1) := by omega
        rw [harith]
        exact hok (p + 1) (Nat.succ_lt_succ hp2) (Nat.succ_lt_succ hpk)
      have herr2 : trainE (i + 1 + k2) (hps.get ⟨k2, hk2⟩) =
          Except.error e := by
        have harith : i + 1 + k2 = i + (k2 + 1) := by omega
        rw [harith]
        exact herr
      have hrec := ih (i + 1) (trialStep st i hp a) k2 hk2 e hok2 herr2
      have hred : sweepE trainE i (hp :: hps) st =
          (i :: (sweepE trainE (i + 1) hps (trialStep st i hp a)).1,
           (sweepE trainE (i + 1) hps (trialStep st i hp a)).2) := by
        simp [sweepE, ha2]
      rw [hred, hrec, ← cons_map_range_shift i (k2 + 1)]

/-- C8: the sweep loop body has no exception handling, so if trial k raises
while all earlier trials complete, the whole sweep aborts with that error: the
loop body starts only for indices 0, ..., k (no retry, no later trial), and
the outcome is the error, never a Best-So-Far state, so no best configuration
is reported. -/
theorem sweep_aborts_on_first_error (trainE : Nat → HPSet → Except String Rat)
    (hps : List HPSet) (k : Nat) (hk : k < hps.length) (e : String)
    (hok : ∀ p, ∀ hp2 : p < hps.length, p < k →
      ∃ a, trainE p (hps.get ⟨p, hp2⟩) = Except.ok a)
    (herr : trainE k (hps.get ⟨k, hk⟩) = Except.error e) :
    sweepE trainE 0 hps initState = (List.range (k + 1), Except.error e) ∧
    ∀ st2 : SweepState,
      (sweepE trainE 0 hps initState).2 ≠ Except.ok st2 := by
  have h0 : ∀ p, ∀ hp2 : p < hps.length, p < k →
      ∃ a, trainE (0 + p) (hps.get ⟨p, hp2⟩) = Except.ok a := by
    intro p hp2 hpk
    rw [Nat.zero_add]
    exact hok p hp2 hpk
  have herr0 : trainE (0 + k) (hps.get ⟨k, hk⟩) = Except.error e := by
    rw [Nat.zero_add]
    exact herr
  have hmain := sweepE_first_error trainE hps 0 initState k hk e h0 herr0
  have hmap : (List.range (k + 1)).map (fun p => 0 + p) =
      List.range (k + 1) := by
    simp
  constructor
  · rw [hmain, hmap]
  · intro st2
    rw [hmain]
    simp

theorem sweep_aborts_on_first_error_witness :
    sweepE trainFailAt0 0 [hpA, hpB] initState =
      (List.range (0 + 1), Except.error "trial failure") ∧
    ∀ st2 : SweepState,
      (sweepE trainFailAt0 0 [hpA, hpB] initState).2 ≠ Except.ok st2 :=
  sweep_aborts_on_first_error trainFailAt0 [hpA, hpB] 0 (by decide)
    "trial failure" (fun p hp2 hpk => absurd hpk (Nat.not_lt_zero p)) rfl

/-- C3: the retraining cell rebuilds its model from exactly the selected best
hyperparameter set, unmutated (the hyperparameter part of the updated config
is that set, and the model is compiled from that config), fits it on the
combined train+validation data (the data the train/validation split was made
from, equal as a multiset to the union of the two split parts), and evaluates
exactly once, on the held-out test set. -/
theorem retrain_uses_best_unmutated {α : Type} (cfg : Config) (best : HPSet)
    (train_valid test : List α) :
    configHPSet (retrainPhase cfg best train_valid test).config = best ∧
    (retrainPhase cfg best train_valid test).config = configUpdateHP cfg best ∧
    (retrainPhase cfg best train_valid test).model =
      build_compile (configUpdateHP cfg best) ∧
    (retrainPhase cfg best train_valid test).fitData = train_valid ∧
    ((train_test_split train_valid).1 ++ (train_test_split train_valid).2).Perm
      train_valid ∧
    (retrainPhase cfg best train_valid test).evalData = test ∧
    (retrainPhase cfg best train_valid test).evalCount = 1 := by
  refine ⟨rfl, rfl, rfl, rfl, ?_, rfl, rfl⟩
  have h1 : train_valid.take (train_valid.length / 10) ++
      train_valid.drop (train_valid.length / 10) = train_valid :=
    List.take_append_drop _ _
  simp only [train_test_split]
  refine List.Perm.trans List.perm_append_comm ?_
  rw [h1]
